import Mathlib

/-!
Verification development for the smartmet-engine-geonames in-memory query
engine.  The definitions below are shallow embeddings of the C++ sources:

* `LocationPriorities` embeds `geonames/LocationPriorities.cpp`
* the suggest pipeline embeds `Engine::Impl::suggest`,
  `suggest_one_keyword`, `add_exact_match_bonus`, `basicSort`,
  `closeEnough`, `reallyClose`, `prioritySort`, `keep_wanted_page`,
  `filter_features` from `geonames/Impl.cpp`
* the translation layer embeds `translate`, `translate_name`,
  `translate_area`, `translate_country` from `geonames/Impl.cpp`
* the database-backed searches embed `name_search`, `lonlat_search`,
  `id_search`, `keyword_search` and `check_forbidden_name_search`
* `reload` embeds `Engine::reload` from `geonames/Engine.cpp`.

Modelling conventions: C++ `std::string` becomes `String` with
lexicographic order computed on code points (UTF-8 byte order and code
point order agree); `std::map` becomes an association list with
first-match lookup; `std::list::sort` (a stable sort) becomes a stable
insertion sort; `std::list::unique` becomes adjacent-duplicate removal
keyed on the last kept element; the locale collator, the ternary-tree
prefix query, the charset converters and the UTF-8 validity test are
carried as opaque function parameters of the engine state, exactly as the
algorithms consume them; IEEE doubles occur only in fields the verified
code copies verbatim, so they are carried as integers.
-/

namespace Geonames

/-- Association-list lookup: `std::map::find`, first match wins. -/
def alookup {α β : Type} [DecidableEq α] (k : α) : List (α × β) → Option β
  | [] => none
  | (a, b) :: rest => if a = k then some b else alookup k rest

/-- Lexicographic order on code-point lists; models `std::string operator<`
(UTF-8 byte order coincides with code-point order). -/
def charsLt : List Char → List Char → Bool
  | [], [] => false
  | [], _ :: _ => true
  | _ :: _, [] => false
  | a :: as, b :: bs =>
      if a.toNat < b.toNat then true
      else if b.toNat < a.toNat then false
      else charsLt as bs

/-- String comparison used by the C++ sort comparators. -/
def strLt (a b : String) : Bool := charsLt a.data b.data

/-- The six C-locale whitespace characters tested by `std::isspace`. -/
def isCSpace (c : Char) : Bool :=
  c = ' ' || c = '\t' || c = '\n' || c = Char.ofNat 0x0B || c = Char.ofNat 0x0C || c = '\r'

/-- ASCII lowercasing: `Fmi::ascii_tolower_copy`. -/
def ascii_tolower (s : String) : String :=
  String.mk (s.data.map fun c =>
    if 'A'.toNat ≤ c.toNat ∧ c.toNat ≤ 'Z'.toNat then Char.ofNat (c.toNat + 32) else c)

/-- Embeds `to_language` (Impl.cpp): normalize a language id to lower case. -/
def to_language (lang : String) : String := ascii_tolower lang

/-- Embeds `Spine::Location`: the fields of the canonical place record.
Coordinates, elevation, dem and covertype are only ever copied by the
verified code, so their carrier type is immaterial; integers keep
everything decidable. -/
structure Location where
  geoid : Int
  name : String
  iso2 : String
  municipality : Int
  area : String
  feature : String
  country : String
  longitude : Int
  latitude : Int
  timezone : String
  population : Int
  elevation : Int
  dem : Int
  covertype : Int
  priority : Int
  fmisid : Option Int
deriving DecidableEq, Repr

/-- Embeds `LocationPriorities::priority_scale` (LocationPriorities.h). -/
def priority_scale : Int := 1000

/-- Rounding half away from zero of the rational `num / den`; models
`lround` applied to the double `1.0 * priority_scale * population / divisor`.
A zero divisor is undefined behaviour in the C++ code (infinite double);
it is mapped to 0 here and never exercised by the theorems. -/
def lroundRat (num den : Int) : Int :=
  if den = 0 then 0
  else
    let n := if den < 0 then -num else num
    let d := if den < 0 then -den else den
    if 0 ≤ n then (2 * n + d) / (2 * d)
    else -((2 * (-n) + d) / (2 * d))

/-- Embeds the configuration tables of `LocationPriorities`. -/
structure LocationPriorities where
  populationPriorities : List (String × Int)
  areaPriorities : List (String × Int)
  countryPriorities : List (String × Int)
  featurePriorities : List (String × List (String × Int))
deriving Repr

namespace LocationPriorities

/-- Embeds `LocationPriorities::populationPriority`. -/
def populationPriority (p : LocationPriorities) (loc : Location) : Int :=
  match alookup loc.iso2 p.populationPriorities with
  | some div => lroundRat (priority_scale * loc.population) div
  | none =>
    match alookup "default" p.populationPriorities with
    | some div => lroundRat (priority_scale * loc.population) div
    | none => 0

/-- Embeds `LocationPriorities::areaPriority`. -/
def areaPriority (p : LocationPriorities) (loc : Location) : Int :=
  match alookup loc.area p.areaPriorities with
  | some v => v * priority_scale
  | none =>
    match alookup "default" p.areaPriorities with
    | some v => v * priority_scale
    | none => 0

/-- Embeds `LocationPriorities::countryPriority`. -/
def countryPriority (p : LocationPriorities) (loc : Location) : Int :=
  match alookup loc.iso2 p.countryPriorities with
  | some v => v * priority_scale
  | none =>
    match alookup "default" p.countryPriorities with
    | some v => v * priority_scale
    | none => 0

/-- Embeds `LocationPriorities::featurePriority`. -/
def featurePriority (p : LocationPriorities) (loc : Location) : Int :=
  let tab :=
    match alookup loc.iso2 p.featurePriorities with
    | some t => some t
    | none => alookup "default" p.featurePriorities
  match tab with
  | none => 0
  | some priomap =>
    match alookup loc.feature priomap with
    | some v => v * priority_scale
    | none =>
      match alookup "default" priomap with
      | some v => v * priority_scale
      | none => 0

/-- Embeds `LocationPriorities::getPriority`: the sum of the four scores,
in the order the C++ accumulates them. -/
def getPriority (p : LocationPriorities) (loc : Location) : Int :=
  populationPriority p loc + areaPriority p loc + countryPriority p loc + featurePriority p loc

end LocationPriorities

/-- Spec-side ranking formula, written from the specification text
(section 4.C7): country score, plus area score, plus population score,
plus feature score, each with the described table lookups and `default`
fall-backs. Compared against `LocationPriorities.getPriority`. -/
def rank_spec (p : LocationPriorities) (iso2 : String) (population : Int)
    (area : String) (feature : String) : Int :=
  let countryScore :=
    match alookup iso2 p.countryPriorities with
    | some v => v * priority_scale
    | none => match alookup "default" p.countryPriorities with
      | some v => v * priority_scale
      | none => 0
  let areaScore :=
    match alookup area p.areaPriorities with
    | some v => v * priority_scale
    | none => match alookup "default" p.areaPriorities with
      | some v => v * priority_scale
      | none => 0
  let populationScore :=
    match alookup iso2 p.populationPriorities with
    | some div => lroundRat (priority_scale * population) div
    | none => match alookup "default" p.populationPriorities with
      | some div => lroundRat (priority_scale * population) div
      | none => 0
  let featureScore :=
    match (match alookup iso2 p.featurePriorities with
           | some t => some t
           | none => alookup "default" p.featurePriorities) with
    | none => 0
    | some priomap =>
      match alookup feature priomap with
      | some v => v * priority_scale
      | none => match alookup "default" priomap with
        | some v => v * priority_scale
        | none => 0
  countryScore + areaScore + populationScore + featureScore

/-- A ternary-search-tree prefix query (`findprefix`), carried as the
function it denotes: normalized key to the list of matching locations. -/
abbrev TreeFun := String → List Location

/-- Embeds the suggest-relevant state of `Engine::Impl` (Impl.h): the
per-keyword tries, the per-language per-keyword tries, the translation
tables, the collator, the charset machinery and the configuration. -/
structure Impl where
  suggestReady : Bool
  ternaryTrees : List (String × TreeFun)
  langTernaryTreeMap : List (String × List (String × TreeFun))
  alternateNames : List (Int × List (String × String))
  alternateMunicipalities : List (Int × List (String × String))
  alternateCountries : List (String × List (String × String))
  countries : List (String × String)
  collate : String → String
  isUtf8 : String → Bool
  fallbackConverters : List (String → Option String)
  nameMatchPriority : Int
  locationPriorities : LocationPriorities
  databaseDisabled : Bool
  forbiddenNamePatterns : List (String → Bool)

/-- Strip one trailing 0-byte left by the boost collator (`to_treeword`). -/
def strip_trailing_nul (s : String) : String :=
  match s.data.reverse with
  | [] => s
  | c :: rest => if c = Char.ofNat 0 then String.mk rest.reverse else s

/-- Embeds `Engine::Impl::to_treeword(name)`: drop whitespace, then apply
the primary-strength collator and strip its trailing 0-byte. -/
def to_treeword (impl : Impl) (name : String) : String :=
  let tmp := String.mk (name.data.filter fun c => !isCSpace c)
  if tmp = "" then ""
  else strip_trailing_nul (impl.collate tmp)

/-- Embeds `Engine::Impl::translate_name`: replace the name by the
alternate name for the lower-cased language, when one exists. -/
def translate_name (impl : Impl) (lang : String) (loc : Location) : Location :=
  match alookup loc.geoid impl.alternateNames with
  | none => loc
  | some translations =>
    match alookup (to_language lang) translations with
    | none => loc
    | some n => { loc with name := n }

/-- First occurrence of the two-character separator `", "`; models
`std::string::find(", ")`, returning the pieces around the separator. -/
def findCommaSplit : List Char → Option (List Char × List Char)
  | [] => none
  | ',' :: ' ' :: rest => some ([], rest)
  | c :: rest =>
    match findCommaSplit rest with
    | none => none
    | some (p, s) => some (c :: p, s)

/-- The municipality-translation step opening `translate_area`: replace
the area by the alternate municipality name for the language, if any. -/
def translate_area_municipality (impl : Impl) (lg : String) (loc : Location) : Location :=
  match alookup loc.municipality impl.alternateMunicipalities with
  | none => loc
  | some translations =>
    match alookup lg translations with
    | none => loc
    | some a => { loc with area := a }

/-- The country component of an area string: the part after the first
`", "` when one occurs (the US `"admin, country"` form), else the whole
area. -/
def area_country_component (area : String) : String :=
  match findCommaSplit area.data with
  | none => area
  | some (_, suf) => String.mk suf

/-- The body of `translate_area` up to the final clearing step: the
municipality translation, then the country translation of the area.  The
Boolean records whether the C++ function returned early (country
component found in the alternate-countries table, but no entry for the
language), in which case the name-equals-area clearing is skipped. -/
def translate_area_core (impl : Impl) (lg : String) (loc : Location) : Location × Bool :=
  let loc1 := translate_area_municipality impl lg loc
  if loc1.area ≠ "" then
    match alookup (area_country_component loc1.area) impl.alternateCountries with
    | none => (loc1, false)
    | some translations =>
      match alookup lg translations with
      | none => (loc1, true)
      | some t =>
        ({ loc1 with area :=
            match findCommaSplit loc1.area.data with
            | none => t
            | some (p, _) => String.mk (p ++ [',', ' ']) ++ t }, false)
  else (loc1, false)

/-- Embeds `Engine::Impl::translate_area`: the translation core, then —
unless the core returned early — clearing the area when it equals the
name, just as the `Spine::Location` constructor does. -/
def translate_area (impl : Impl) (lang : String) (loc : Location) : Location :=
  let lg := to_language lang
  let lc := translate_area_core impl lg loc
  if lc.2 then lc.1
  else if lc.1.name = lc.1.area then { lc.1 with area := "" } else lc.1

/-- Embeds `Engine::Impl::translate_country`: iso2 to official name, then
through the alternate-countries table for the lower-cased language. -/
def translate_country (impl : Impl) (iso2 lang : String) : String :=
  let lg := to_language lang
  match alookup iso2 impl.countries with
  | none => ""
  | some cname =>
    match alookup cname impl.alternateCountries with
    | none => cname
    | some translations =>
      match alookup lg translations with
      | none => cname
      | some t => t

/-- Embeds `Engine::Impl::translate(LocationPtr&, lang)`: build a new
record, translate name then area, then fill in the localized country. -/
def translate (impl : Impl) (lang : String) (loc : Location) : Location :=
  let l1 := translate_name impl lang loc
  let l2 := translate_area impl lang l1
  { l2 with country := translate_country impl l2.iso2 lang }

/-- Embeds `basicSort` (Impl.cpp): name, iso2, area ascending, then
priority descending. -/
def basicSortB (a b : Location) : Bool :=
  if a.name ≠ b.name then strLt a.name b.name
  else if a.iso2 ≠ b.iso2 then strLt a.iso2 b.iso2
  else if a.area ≠ b.area then strLt a.area b.area
  else decide (a.priority > b.priority)

/-- Embeds `closeEnough` (Impl.cpp): equal name, iso2 and area. -/
def closeEnough (a b : Location) : Bool :=
  decide (a.name = b.name) && decide (a.iso2 = b.iso2) && decide (a.area = b.area)

/-- Embeds `reallyClose` (Impl.cpp): equal geoid. -/
def reallyClose (a b : Location) : Bool :=
  decide (a.geoid = b.geoid)

/-- Embeds `Engine::Impl::prioritySort`: priority descending, then the
collated name, then the area. -/
def prioritySortB (impl : Impl) (a b : Location) : Bool :=
  if a.priority ≠ b.priority then decide (a.priority > b.priority)
  else
    let an := to_treeword impl a.name
    let bn := to_treeword impl b.name
    if an ≠ bn then strLt an bn
    else strLt a.area b.area

/-- Stable insertion of one element: placed before the first strictly
greater element, hence after every equivalent one. -/
def sinsert {α : Type} (lt : α → α → Bool) (x : α) : List α → List α
  | [] => [x]
  | y :: ys => if lt x y then x :: y :: ys else y :: sinsert lt x ys

/-- Stable sort with a strict comparator; models `std::list::sort`,
which is specified to be stable, so on a strict weak order the output of
any stable sort is the same list. -/
def ssort {α : Type} (lt : α → α → Bool) (l : List α) : List α :=
  l.foldl (fun acc x => sinsert lt x acc) []

/-- Helper of `uniqueAdj`: `prev` is the last kept element. -/
def uniqueAdjAux {α : Type} (p : α → α → Bool) (prev : α) : List α → List α
  | [] => []
  | y :: ys => if p prev y then uniqueAdjAux p prev ys else y :: uniqueAdjAux p y ys

/-- Embeds `std::list::unique(p)`: from every maximal run of elements
equivalent (under `p`) to the last kept element, keep only the first. -/
def uniqueAdj {α : Type} (p : α → α → Bool) : List α → List α
  | [] => []
  | x :: xs => x :: uniqueAdjAux p x xs

/-- Embeds `filter_features` (Impl.cpp): `locs.remove_if(predicate)`, so
every location the predicate holds on is removed. -/
def filter_features (locs : List Location) (predicate : Location → Bool) : List Location :=
  locs.filter fun l => !predicate l

/-- Embeds `keep_wanted_page` (Impl.cpp): with a zero page size keep
all, otherwise erase the pages before the wanted one and keep one page.
The offset `page * maxresults` is computed in `unsigned int` arithmetic,
so the product wraps modulo `2^32`; the first `std::advance` then walks
a `std::list` iterator that many steps with no clamp against the list
size, which is undefined behaviour whenever the offset exceeds the
size — modelled as `none`.  The second erase clamps its step count with
`std::min` and is total (`take` below). -/
def keep_wanted_page (locs : List Location) (maxresults page : Nat) :
    Option (List Location) :=
  if maxresults = 0 then some locs
  else
    let first := (page * maxresults) % 2 ^ 32
    if locs.length < first then none
    else some ((locs.drop first).take maxresults)

/-- Splitting at every comma; models
`boost::algorithm::split(.., is_any_of(","))`, which yields `[""]` on the
empty string and keeps empty tokens. -/
def splitCommaChars : List Char → List (List Char)
  | [] => [[]]
  | ',' :: rest => [] :: splitCommaChars rest
  | c :: rest =>
    match splitCommaChars rest with
    | [] => [[c]]
    | w :: ws => (c :: w) :: ws

/-- String version of `splitCommaChars`. -/
def splitComma (s : String) : List String :=
  (splitCommaChars s.data).map String.mk

/-- Embeds the `try_pattern` lambda of `suggest_one_keyword`: normalize
the pattern, query the keyword trie, then append the matches of the
language-specific trie for the same keyword.  Returns the normalized
pattern together with the candidates, since the lambda leaves both
behind in the enclosing scope. -/
def try_pattern (impl : Impl) (lang keyword : String) (tree : TreeFun)
    (pattern : String) : String × List Location :=
  let name := to_treeword impl pattern
  let result := tree name
  let lg := to_language lang
  let result :=
    match alookup lg impl.langTernaryTreeMap with
    | none => result
    | some m =>
      match alookup keyword m with
      | none => result
      | some t => result ++ t name
  (name, result)

/-- Embeds the fallback-encoding loop of `suggest_one_keyword`: converters
that fail are skipped, the first encoding that produces matches wins, and
the pair (normalized name, result) of the last attempted conversion is
left behind otherwise. -/
def fallback_loop (f : String → String × List Location) :
    List (String → Option String) → String → String × List Location → String × List Location
  | [], _, st => st
  | conv :: rest, pattern, st =>
    match conv pattern with
    | none => fallback_loop f rest pattern st
    | some tmp =>
      let st2 := f tmp
      if st2.2.isEmpty then fallback_loop f rest pattern st2 else st2

/-- The candidate-collection phase of `suggest_one_keyword`: direct lookup
for valid UTF-8 patterns, the fallback-encoding loop otherwise. -/
def find_candidates (impl : Impl) (pattern lang keyword : String) (tree : TreeFun) :
    String × List Location :=
  if impl.isUtf8 pattern then try_pattern impl lang keyword tree pattern
  else fallback_loop (try_pattern impl lang keyword tree) impl.fallbackConverters pattern ("", [])

/-- Embeds `Engine::Impl::add_exact_match_bonus`: every candidate whose
collated name equals the collated pattern gets a fresh record with the
bonus added to its priority. -/
def add_exact_match_bonus (impl : Impl) (locs : List Location) (name : String)
    (bonus : Int) : List Location :=
  locs.map fun loc =>
    if to_treeword impl loc.name = name then { loc with priority := loc.priority + bonus }
    else loc

/-- Embeds `Engine::Impl::suggest_one_keyword`: collect candidates, then
add the exact-match bonus `itsNameMatchPriority * priority_scale`. -/
def suggest_one_keyword (impl : Impl) (pattern lang keyword : String)
    (tree : TreeFun) : List Location :=
  let st := find_candidates impl pattern lang keyword tree
  add_exact_match_bonus impl st.2 st.1 (impl.nameMatchPriority * priority_scale)

/-- Embeds the single-language `Engine::Impl::suggest`: ready check,
keyword validation, per-keyword candidate collection, predicate filter,
translation, duplicate removal between the two sorts, and pagination.
The outer `Option` is the undefined behaviour of `keep_wanted_page` on
an out-of-range page (`none`); every defined outcome, error or result
list, sits inside `some`. -/
def suggest (impl : Impl) (pattern : String) (predicate : Location → Bool)
    (lang keyword : String) (page maxresults : Nat) (duplicates : Bool) :
    Option (Except String (List Location)) :=
  if !impl.suggestReady then
    some (.error "Attempt to use geonames suggest before it is ready!")
  else
    let keywords := splitComma keyword
    if keywords.any (fun k => (alookup k impl.ternaryTrees).isNone) then some (.ok [])
    else
      let ret := keywords.flatMap fun k =>
        match alookup k impl.ternaryTrees with
        | none => []
        | some tree => suggest_one_keyword impl pattern lang k tree
      let ret := filter_features ret predicate
      let ret := ret.map (translate impl lang)
      let ret := ssort basicSortB ret
      let ret := if !duplicates then uniqueAdj closeEnough ret else uniqueAdj reallyClose ret
      let ret := ssort (prioritySortB impl) ret
      (keep_wanted_page ret maxresults page).map Except.ok

/-- Embeds the multi-language `Engine::Impl::suggest`.  The C++ function
does run its predicate-filter loop, but over the result vector `ret`,
which is still empty at that point (it is filled only after pagination);
the loop is therefore a no-op and the predicate argument is never
applied, which is why the parameter is unused below.  No exact-match
bonus is applied either (the source comments call this out).  The
pagination block inlines the same two-erase sequence as
`keep_wanted_page` — unsigned offset, unclamped first advance — so the
shared definition embeds it, and the outer `Option` again marks the
undefined behaviour of an out-of-range page. -/
def suggest_multilang (impl : Impl) (pattern : String) (_predicate : Location → Bool)
    (languages : List String) (keyword : String) (page maxresults : Nat)
    (duplicates : Bool) : Option (Except String (List (List Location))) :=
  if !impl.suggestReady then
    some (.error "Attempt to use geonames suggest before it is ready!")
  else if languages.isEmpty then
    some (.error "Must provide atleast one language for autocomplete")
  else if languages.length < 2 then
    some (.error "Called autocomplete for N languages with less than 2 languages")
  else
    match alookup keyword impl.ternaryTrees with
    | none => some (.ok [])
    | some tree =>
      let name := to_treeword impl pattern
      let candidates := tree name
      let candidates := candidates ++ languages.flatMap fun lang =>
        match alookup (to_language lang) impl.langTernaryTreeMap with
        | none => []
        | some m =>
          match alookup keyword m with
          | none => []
          | some t => t name
      let candidates := ssort basicSortB candidates
      let candidates :=
        if !duplicates then uniqueAdj closeEnough candidates
        else uniqueAdj reallyClose candidates
      let candidates := ssort (prioritySortB impl) candidates
      (keep_wanted_page candidates maxresults page).map fun cs =>
        .ok (languages.map fun lang => cs.map (translate impl lang))

/-- Keys of the shared search cache.  The C++ keys are `std::size_t` hash
combinations of the inputs; the four key families are modelled injectively
(the keyword family is seeded with the constant `0x12345678` in the code
precisely to keep it apart from the name family). -/
inductive CacheKey
  | nameKey (n : String) (optshash : Nat)
  | lonlatKey (lon lat radius : Int) (optshash : Nat)
  | idKey (i : Int) (optshash : Nat)
  | keywordKey (k : String) (optshash : Nat)
deriving DecidableEq, Repr

/-- The pieces of `Locus::QueryOptions` the verified code inspects: the
result limit it reads and rewrites, and the opaque hash of the rest. -/
structure QueryOptions where
  resultLimit : Nat
  optshash : Nat
deriving DecidableEq, Repr

/-- The mutable cache state shared by the four database-backed searches
(`itsNameSearchCache`).  LRU promotion and eviction are capacity
management below the claims considered here; the cache is modelled as the
association of keys to stored result lists. -/
structure SearchState where
  cache : List (CacheKey × List Location)

/-- Cache lookup (`Fmi::Cache::Cache::find`). -/
def cache_find (st : SearchState) (k : CacheKey) : Option (List Location) :=
  alookup k st.cache

/-- Cache insertion (`Fmi::Cache::Cache::insert`). -/
def cache_insert (st : SearchState) (k : CacheKey) (v : List Location) : SearchState :=
  { st with cache := (k, v) :: st.cache }

/-- The pooled `Locus::Query` database fetches, carried as functions; the
`to_locationlist` row conversion (DEM / cover-type resolution, area
selection) is absorbed into them since no claim below depends on it. -/
structure GeoDB where
  fetchByName : QueryOptions → String → List Location
  fetchByLonLat : QueryOptions → Int → Int → Int → List Location
  fetchById : QueryOptions → Int → List Location
  fetchByKeyword : QueryOptions → String → List Location

/-- Embeds `check_forbidden_name_search` (Impl.cpp): true exactly when
some configured deny rule matches the whole name, in which case the C++
function throws the "Forbidden name search" error. -/
def check_forbidden_name_search (name : String) (rules : List (String → Bool)) : Bool :=
  rules.any fun r => r name

/-- Embeds `Engine::Impl::assign_priorities`: write the ranker score into
every record. -/
def assign_priorities (impl : Impl) (locs : List Location) : List Location :=
  locs.map fun l => { l with priority := impl.locationPriorities.getPriority l }

/-- Embeds `Engine::Impl::name_search`: cache lookup, forbidden-name
check on a miss, fetch with a result limit raised to at least 100, rank,
priority sort, trim to the caller's limit, and cache insertion that
happens even for an empty result. -/
def name_search (impl : Impl) (db : GeoDB) (st : SearchState)
    (opts : QueryOptions) (name : String) :
    Except String (List Location × SearchState) :=
  if impl.databaseDisabled then .ok ([], st)
  else
    let key := CacheKey.nameKey name opts.optshash
    match cache_find st key with
    | some v => .ok (v, st)
    | none =>
      if check_forbidden_name_search name impl.forbiddenNamePatterns then
        .error "Forbidden name search"
      else
        let options :=
          if opts.resultLimit > 0 then { opts with resultLimit := max opts.resultLimit 100 }
          else opts
        let ptrs := db.fetchByName options name
        let ptrs := assign_priorities impl ptrs
        let ptrs := ssort (prioritySortB impl) ptrs
        let ptrs :=
          if opts.resultLimit > 0 ∧ ptrs.length > opts.resultLimit then
            ptrs.take opts.resultLimit
          else ptrs
        .ok (ptrs, cache_insert st key ptrs)

/-- Embeds `Engine::Impl::lonlat_search`: cache lookup, fetch, and a
cache insertion that is skipped when the result is empty. -/
def lonlat_search (impl : Impl) (db : GeoDB) (st : SearchState)
    (opts : QueryOptions) (lon lat radius : Int) : List Location × SearchState :=
  if impl.databaseDisabled then ([], st)
  else
    let key := CacheKey.lonlatKey lon lat radius opts.optshash
    match cache_find st key with
    | some v => (v, st)
    | none =>
      let ptrs := db.fetchByLonLat opts lon lat radius
      if ptrs.isEmpty then (ptrs, st)
      else (ptrs, cache_insert st key ptrs)

/-- Embeds `Engine::Impl::id_search`: same shape as `lonlat_search`. -/
def id_search (impl : Impl) (db : GeoDB) (st : SearchState)
    (opts : QueryOptions) (i : Int) : List Location × SearchState :=
  if impl.databaseDisabled then ([], st)
  else
    let key := CacheKey.idKey i opts.optshash
    match cache_find st key with
    | some v => (v, st)
    | none =>
      let ptrs := db.fetchById opts i
      if ptrs.isEmpty then (ptrs, st)
      else (ptrs, cache_insert st key ptrs)

/-- Embeds `Engine::Impl::keyword_search`: same shape as `lonlat_search`,
with the distinctly seeded key. -/
def keyword_search (impl : Impl) (db : GeoDB) (st : SearchState)
    (opts : QueryOptions) (kw : String) : List Location × SearchState :=
  if impl.databaseDisabled then ([], st)
  else
    let key := CacheKey.keywordKey kw opts.optshash
    match cache_find st key with
    | some v => (v, st)
    | none =>
      let ptrs := db.fetchByKeyword opts kw
      if ptrs.isEmpty then (ptrs, st)
      else (ptrs, cache_insert st key ptrs)

/-- Outcome of building and initializing a fresh generation inside
`Engine::reload`: `init` either completes with the reload-ok flag set,
completes with the flag cleared and an error string recorded, or throws. -/
inductive BuildOutcome
  | ok (g : Nat)
  | failed (err : String)
  | threw (err : String)
deriving DecidableEq, Repr

/-- The `Engine` members `reload` reads and writes: the re-entry flag,
the stored error message and the published generation (an abstract
generation number standing for the atomic `impl` pointer). -/
structure EngineState where
  reloading : Bool
  errorMessage : String
  implGen : Nat
deriving DecidableEq, Repr

/-- Embeds `Engine::reload` (Engine.cpp).  The function catches every
exception and always returns a pair (success flag, output text); the
log-line decoration of the output text (timestamps, durations) is
abbreviated to its message content.  Re-entry is rejected while another
reload runs; only the success path stores a new generation. -/
def reload (st : EngineState) (outcome : BuildOutcome) : (Bool × String) × EngineState :=
  if st.reloading then
    ((false, "Geo reload was already in progress"),
      { st with errorMessage := "Geo reload was already in progress" })
  else
    match outcome with
    | .ok g =>
      ((true, "Geonames reloaded"),
        { st with implGen := g, errorMessage := "", reloading := false })
    | .failed err =>
      ((false, err), { st with errorMessage := err, reloading := false })
    | .threw err =>
      ((false, err), { st with errorMessage := err, reloading := false })

/-- Strict comparison of integers as a Boolean. -/
def intLt (a b : Int) : Bool := decide (a < b)

/-- Lexicographic combination of two strict comparators: compare the
first components, fall through to the second on a tie. -/
def prodLt {κ₁ κ₂ : Type} (l1 : κ₁ → κ₁ → Bool) (l2 : κ₂ → κ₂ → Bool) :
    κ₁ × κ₂ → κ₁ × κ₂ → Bool
  | (a1, a2), (b1, b2) => if l1 a1 b1 then true else if l1 b1 a1 then false else l2 a2 b2

/-- The sort key of suggest step 5: the tuple `(name, iso2, area,
-priority)`. -/
def key4 (a : Location) : String × (String × (String × Int)) :=
  (a.name, (a.iso2, (a.area, -a.priority)))

/-- The `(name, iso2, area)` triple of a location. -/
def key3 (a : Location) : String × (String × String) :=
  (a.name, (a.iso2, a.area))

/-- The sort key of suggest step 6: `(-priority, normalized-name, area)`. -/
def keyF (impl : Impl) (a : Location) : Int × (String × String) :=
  (-a.priority, (to_treeword impl a.name, a.area))

/-- Lexicographic comparator on `key4` tuples. -/
def lt4 : String × (String × (String × Int)) → String × (String × (String × Int)) → Bool :=
  prodLt strLt (prodLt strLt (prodLt strLt intLt))

/-- Lexicographic comparator on `key3` triples. -/
def lt3 : String × (String × String) → String × (String × String) → Bool :=
  prodLt strLt (prodLt strLt strLt)

/-- Lexicographic comparator on `keyF` tuples. -/
def ltF : Int × (String × String) → Int × (String × String) → Bool :=
  prodLt intLt (prodLt strLt strLt)

/-- Spec-side comparator of suggest step 5, written from the spec text:
ascending lexicographically by the tuple `(name, iso2, area, -priority)`. -/
def specDedupLt (a b : Location) : Bool :=
  lt4 (key4 a) (key4 b)

/-- Lexicographic comparison of the `(name, iso2, area)` triple alone. -/
def tripleLt (a b : Location) : Bool :=
  lt3 (key3 a) (key3 b)

/-- Spec-side comparator of suggest step 6, written from the spec text:
ascending lexicographically by `(-priority, normalized-name, area)`. -/
def specFinalLt (impl : Impl) (a b : Location) : Bool :=
  ltF (keyF impl a) (keyF impl b)

/-- Spec-side duplicate relation for `duplicates=false`: equal
`(name, iso2, area)` tuples. -/
def spec_close (a b : Location) : Bool :=
  decide ((a.name, a.iso2, a.area) = (b.name, b.iso2, b.area))

/-- Spec-side duplicate relation for `duplicates=true`: equal geoids. -/
def spec_geoid_eq (a b : Location) : Bool :=
  decide (a.geoid = b.geoid)

/-- The single-language suggest pipeline written from the specification
wording of steps 5 to 7 (section 4.C6): sort ascending by
`(name, iso2, area, -priority)`, collapse duplicates under the relation
selected by the duplicates flag, sort by `(-priority, normalized-name,
area)`, keep the requested page.  Steps 1 to 4 (candidate collection,
predicate filter, translation) are the ones of the embedding.  Compared
against `suggest`. -/
def suggest_spec (impl : Impl) (pattern : String) (predicate : Location → Bool)
    (lang keyword : String) (page maxresults : Nat) (duplicates : Bool) :
    Option (Except String (List Location)) :=
  if !impl.suggestReady then
    some (.error "Attempt to use geonames suggest before it is ready!")
  else
    let keywords := splitComma keyword
    if keywords.any (fun k => (alookup k impl.ternaryTrees).isNone) then some (.ok [])
    else
      let merged := keywords.flatMap fun k =>
        match alookup k impl.ternaryTrees with
        | none => []
        | some tree => suggest_one_keyword impl pattern lang k tree
      let translated := (filter_features merged predicate).map (translate impl lang)
      let sorted1 := ssort specDedupLt translated
      let deduped :=
        if duplicates then uniqueAdj spec_geoid_eq sorted1
        else uniqueAdj spec_close sorted1
      let sorted2 := ssort (specFinalLt impl) deduped
      (keep_wanted_page sorted2 maxresults page).map Except.ok

/-- The single-language suggest result before pagination: everything
`suggest` does up to and excluding `keep_wanted_page`. -/
def suggest_all (impl : Impl) (pattern : String) (predicate : Location → Bool)
    (lang keyword : String) (duplicates : Bool) : List Location :=
  let keywords := splitComma keyword
  if keywords.any (fun k => (alookup k impl.ternaryTrees).isNone) then []
  else
    let ret := keywords.flatMap fun k =>
      match alookup k impl.ternaryTrees with
      | none => []
      | some tree => suggest_one_keyword impl pattern lang k tree
    let ret := filter_features ret predicate
    let ret := ret.map (translate impl lang)
    let ret := ssort basicSortB ret
    let ret := if !duplicates then uniqueAdj closeEnough ret else uniqueAdj reallyClose ret
    ssort (prioritySortB impl) ret

/-- Suffix test on code-point lists (kernel-computable). -/
def endsWithChars (s suf : List Char) : Bool :=
  decide (s.reverse.take suf.length = suf.reverse)

/-- Modelled from the spec: the `security.names.deny` regex list lives in
the runtime configuration file, which is not part of the sources under
verification; spec scenario 11 prescribes that `name_search` rejects
`"Helsinki.png"` and accepts `"Helsinki"`, and the test suite also sends
`style.css` and `admin.js`, so the deny list is modelled as one pattern
matching names with a web-asset extension. -/
def deny_webasset (s : String) : Bool :=
  endsWithChars s.data ".png".data || endsWithChars s.data ".css".data ||
    endsWithChars s.data ".js".data

/-- Default-valued location record, base for the concrete test data. -/
def baseLoc : Location :=
  { geoid := 0, name := "", iso2 := "", municipality := 0, area := "", feature := "",
    country := "", longitude := 0, latitude := 0, timezone := "", population := 0,
    elevation := 0, dem := 0, covertype := 0, priority := 0, fmisid := none }

/-- Minimal engine state: identity collator, valid-UTF-8 patterns, empty
tables, the default exact-match priority 50 of Impl.h. -/
def baseImpl : Impl :=
  { suggestReady := true, ternaryTrees := [], langTernaryTreeMap := [],
    alternateNames := [], alternateMunicipalities := [], alternateCountries := [],
    countries := [], collate := id, isUtf8 := fun _ => true, fallbackConverters := [],
    nameMatchPriority := 50,
    locationPriorities :=
      { populationPriorities := [], areaPriorities := [],
        countryPriorities := [], featurePriorities := [] },
    databaseDisabled := false, forbiddenNamePatterns := [] }

/-- Concrete location with a nonempty name. -/
def locA : Location := { baseLoc with geoid := 1, name := "Abc" }

/-- Concrete second location with a different name. -/
def locB : Location := { baseLoc with geoid := 2, name := "Xyz" }

/-- Engine state whose `all` keyword trie matches `locA` for any key. -/
def implC1 : Impl := { baseImpl with ternaryTrees := [("all", fun _ => [locA])] }

/-- Same engine state during the initial load: suggest not ready yet. -/
def implC2 : Impl := { implC1 with suggestReady := false }

/-- Concrete ranker configuration exercising all four tables. -/
def prioC4 : LocationPriorities :=
  { populationPriorities := [("FI", 100), ("default", 1000)],
    areaPriorities := [("Helsinki", 5)],
    countryPriorities := [("FI", 10), ("default", 2)],
    featurePriorities := [("FI", [("PPL", 3), ("default", 1)]), ("default", [("SYNOP", 7)])] }

/-- Concrete location hitting the FI entries of every table. -/
def locC4 : Location :=
  { baseLoc with
    name := "Kumpula", iso2 := "FI", population := 1234,
    area := "Helsinki", feature := "PPL" }

/-- Same ranking fields as `locC4`, every other field different. -/
def locC4b : Location :=
  { baseLoc with
    geoid := 99, name := "Other", iso2 := "FI", population := 1234,
    area := "Helsinki", feature := "PPL", timezone := "Europe/Helsinki",
    longitude := 25, latitude := 60, priority := 123456 }

/-- Duplicate pair (same name, iso2, area; different geoid) plus a third
distinct location, for the deduplication scenario. -/
def locD1 : Location := { baseLoc with geoid := 1, name := "Aa", iso2 := "FI", area := "Z" }

/-- Second member of the duplicate pair. -/
def locD2 : Location := { baseLoc with geoid := 2, name := "Aa", iso2 := "FI", area := "Z" }

/-- The distinct third location. -/
def locD3 : Location := { baseLoc with geoid := 3, name := "Bb", iso2 := "FI", area := "Z" }

/-- Engine state whose `all` trie yields the duplicate-bearing list. -/
def implC5 : Impl :=
  { baseImpl with ternaryTrees := [("all", fun _ => [locD1, locD2, locD3])] }

/-- Five distinct locations for the pagination scenario. -/
def locsC6 : List Location :=
  [{ baseLoc with geoid := 1, name := "Aa" }, { baseLoc with geoid := 2, name := "Bb" },
   { baseLoc with geoid := 3, name := "Cc" }, { baseLoc with geoid := 4, name := "Dd" },
   { baseLoc with geoid := 5, name := "Ee" }]

/-- Engine state whose `all` trie yields the five pagination locations. -/
def implC6 : Impl := { baseImpl with ternaryTrees := [("all", fun _ => locsC6)] }

/-- Database stub returning empty result sets everywhere. -/
def dbEmpty : GeoDB :=
  { fetchByName := fun _ _ => [], fetchByLonLat := fun _ _ _ _ => [],
    fetchById := fun _ _ => [], fetchByKeyword := fun _ _ => [] }

/-- Database stub whose name fetch finds `locA`. -/
def dbName : GeoDB := { dbEmpty with fetchByName := fun _ _ => [locA] }

/-- Empty shared search cache. -/
def stEmpty : SearchState := { cache := [] }

/-- Concrete query options: no result limit, options hash 0. -/
def opts0 : QueryOptions := { resultLimit := 0, optshash := 0 }

/-- Engine state with the modelled deny pattern installed. -/
def implC8 : Impl := { baseImpl with forbiddenNamePatterns := [deny_webasset] }

/-- Engine state reproducing the skipped clearing: the municipality
translates to `"Suomi"`, and `"Suomi"` is listed among alternate
countries with a Swedish entry only. -/
def implC10 : Impl :=
  { baseImpl with
    alternateMunicipalities := [(1, [("fi", "Suomi")])],
    alternateCountries := [("Suomi", [("sv", "Finland")])] }

/-- Same state without the alternate-country entry, so the clearing
step runs. -/
def implC10w : Impl :=
  { baseImpl with alternateMunicipalities := [(1, [("fi", "Suomi")])] }

/-- Location whose translated area collides with its name. -/
def locC10 : Location := { baseLoc with name := "Suomi", municipality := 1, area := "X" }

/-- Agreement of two location records on every field other than `name`,
`area` and `country` (the three a translation may overwrite). -/
def eqOutsideNAC (a b : Location) : Prop :=
  a.geoid = b.geoid ∧ a.iso2 = b.iso2 ∧ a.municipality = b.municipality ∧
  a.feature = b.feature ∧ a.longitude = b.longitude ∧ a.latitude = b.latitude ∧
  a.timezone = b.timezone ∧ a.population = b.population ∧ a.elevation = b.elevation ∧
  a.dem = b.dem ∧ a.covertype = b.covertype ∧ a.priority = b.priority ∧ a.fmisid = b.fmisid

/-! Order-theoretic facts about the comparison primitives. -/

theorem charsLt_irrefl : ∀ l : List Char, charsLt l l = false
  | [] => rfl
  | c :: cs => by simp [charsLt, charsLt_irrefl cs]

theorem charsLt_asymm : ∀ {a b : List Char}, charsLt a b = true → charsLt b a = false
  | [], [], h => by simp [charsLt] at h
  | [], _ :: _, _ => rfl
  | _ :: _, [], h => by simp [charsLt] at h
  | x :: xs, y :: ys, h => by
    simp only [charsLt] at h ⊢
    by_cases h1 : x.toNat < y.toNat
    · have h2 : ¬ y.toNat < x.toNat := by omega
      simp [h1, h2]
    · by_cases h2 : y.toNat < x.toNat
      · simp [h1, h2] at h
      · simp only [h1, h2, if_false, if_neg] at h ⊢
        simp [charsLt_asymm h]

theorem charsLt_trans : ∀ {a b c : List Char},
    charsLt a b = true → charsLt b c = true → charsLt a c = true
  | [], [], _, h1, _ => by simp [charsLt] at h1
  | [], _ :: _, [], _, h2 => by simp [charsLt] at h2
  | [], _ :: _, _ :: _, _, _ => rfl
  | _ :: _, [], _, h1, _ => by simp [charsLt] at h1
  | _ :: _, _ :: _, [], _, h2 => by simp [charsLt] at h2
  | x :: xs, y :: ys, z :: zs, h1, h2 => by
    simp only [charsLt] at h1 h2 ⊢
    by_cases hxy : x.toNat < y.toNat
    · by_cases hyz : y.toNat < z.toNat
      · simp [show x.toNat < z.toNat by omega]
      · by_cases hzy : z.toNat < y.toNat
        · simp [hyz, hzy] at h2
        · simp [show x.toNat < z.toNat by omega]
    · by_cases hyx : y.toNat < x.toNat
      · simp [hxy, hyx] at h1
      · simp only [hxy, hyx, if_false, if_neg] at h1
        by_cases hyz : y.toNat < z.toNat
        · simp [show x.toNat < z.toNat by omega]
        · by_cases hzy : z.toNat < y.toNat
          · simp [hyz, hzy] at h2
          · simp only [hyz, hzy, if_false, if_neg] at h2
            have hxz : ¬ x.toNat < z.toNat := by omega
            have hzx : ¬ z.toNat < x.toNat := by omega
            simp [hxz, hzx, charsLt_trans h1 h2]

theorem charsLt_conn : ∀ {a b : List Char},
    charsLt a b = false → charsLt b a = false → a = b
  | [], [], _, _ => rfl
  | [], _ :: _, h1, _ => by simp [charsLt] at h1
  | _ :: _, [], _, h2 => by simp [charsLt] at h2
  | x :: xs, y :: ys, h1, h2 => by
    simp only [charsLt] at h1 h2
    by_cases hxy : x.toNat < y.toNat
    · simp [hxy] at h1
    · by_cases hyx : y.toNat < x.toNat
      · simp [hyx] at h2
      · have hx : x = y := by
          have h : x.toNat = y.toNat := by omega
          have h2 := congrArg Char.ofNat h
          rwa [Char.ofNat_toNat, Char.ofNat_toNat] at h2
        simp only [hxy, hyx, if_neg, if_false] at h1 h2
        simp_all [charsLt_conn h1 h2]

theorem strLt_irrefl (s : String) : strLt s s = false := charsLt_irrefl s.data

theorem strLt_asymm : ∀ a b : String, strLt a b = true → strLt b a = false :=
  fun _ _ h => charsLt_asymm h

theorem strLt_trans : ∀ a b c : String,
    strLt a b = true → strLt b c = true → strLt a c = true :=
  fun _ _ _ h1 h2 => charsLt_trans h1 h2

theorem strLt_conn : ∀ a b : String, strLt a b = false → strLt b a = false → a = b :=
  fun _ _ h1 h2 => String.ext (charsLt_conn h1 h2)

theorem intLt_asymm : ∀ a b : Int, intLt a b = true → intLt b a = false := by
  intro a b h
  simp only [intLt, decide_eq_true_eq] at h
  simp only [intLt, decide_eq_false_iff_not]
  omega

theorem intLt_trans : ∀ a b c : Int, intLt a b = true → intLt b c = true →
    intLt a c = true := by
  intro a b c h1 h2
  simp only [intLt, decide_eq_true_eq] at h1 h2 ⊢
  omega

theorem intLt_conn : ∀ a b : Int, intLt a b = false → intLt b a = false → a = b := by
  intro a b h1 h2
  simp only [intLt, decide_eq_false_iff_not] at h1 h2
  omega

theorem cmp_nlt_trans {κ : Type} {cmp : κ → κ → Bool}
    (hconn : ∀ a b : κ, cmp a b = false → cmp b a = false → a = b)
    (htrans : ∀ a b c : κ, cmp a b = true → cmp b c = true → cmp a c = true)
    {a b c : κ} (hba : cmp b a = false) (hcb : cmp c b = false) : cmp c a = false := by
  cases hca : cmp c a with
  | false => rfl
  | true =>
    cases hab : cmp a b with
    | true =>
      have h2 := htrans c a b hca hab
      rw [h2] at hcb
      exact hcb
    | false =>
      have hab2 := hconn a b hab hba
      rw [hab2] at hca
      rw [hca] at hcb
      exact hcb

theorem prodLt_asymm {κ₁ κ₂ : Type} {l1 : κ₁ → κ₁ → Bool} {l2 : κ₂ → κ₂ → Bool}
    (h1a : ∀ a b : κ₁, l1 a b = true → l1 b a = false)
    (h2a : ∀ a b : κ₂, l2 a b = true → l2 b a = false) :
    ∀ p q : κ₁ × κ₂, prodLt l1 l2 p q = true → prodLt l1 l2 q p = false := by
  intro ⟨a1, a2⟩ ⟨b1, b2⟩ h
  simp only [prodLt] at h ⊢
  by_cases hab : l1 a1 b1 = true
  · simp [h1a a1 b1 hab, hab]
  · simp only [Bool.not_eq_true] at hab
    by_cases hba : l1 b1 a1 = true
    · simp [hab, hba] at h
    · simp only [Bool.not_eq_true] at hba
      simp only [hab, hba, if_false, Bool.false_eq_true, if_neg] at h ⊢
      simp [h2a a2 b2 h]

theorem prodLt_trans {κ₁ κ₂ : Type} {l1 : κ₁ → κ₁ → Bool} {l2 : κ₂ → κ₂ → Bool}
    (h1t : ∀ a b c : κ₁, l1 a b = true → l1 b c = true → l1 a c = true)
    (h1c : ∀ a b : κ₁, l1 a b = false → l1 b a = false → a = b)
    (h2t : ∀ a b c : κ₂, l2 a b = true → l2 b c = true → l2 a c = true) :
    ∀ p q r : κ₁ × κ₂, prodLt l1 l2 p q = true → prodLt l1 l2 q r = true →
      prodLt l1 l2 p r = true := by
  intro ⟨a1, a2⟩ ⟨b1, b2⟩ ⟨c1, c2⟩ hpq hqr
  simp only [prodLt] at hpq hqr ⊢
  by_cases hab : l1 a1 b1 = true
  · by_cases hbc : l1 b1 c1 = true
    · simp [h1t a1 b1 c1 hab hbc]
    · simp only [Bool.not_eq_true] at hbc
      by_cases hcb : l1 c1 b1 = true
      · simp [hbc, hcb] at hqr
      · simp only [Bool.not_eq_true] at hcb
        have hbceq : b1 = c1 := h1c b1 c1 hbc hcb
        subst hbceq
        simp [hab]
  · simp only [Bool.not_eq_true] at hab
    by_cases hba : l1 b1 a1 = true
    · simp [hab, hba] at hpq
    · simp only [Bool.not_eq_true] at hba
      have habeq : a1 = b1 := h1c a1 b1 hab hba
      subst habeq
      simp only [hab, hba, if_neg, if_false, Bool.false_eq_true] at hpq
      by_cases hbc : l1 a1 c1 = true
      · simp [hbc]
      · simp only [Bool.not_eq_true] at hbc
        by_cases hcb : l1 c1 a1 = true
        · simp [hbc, hcb] at hqr
        · simp only [Bool.not_eq_true] at hcb
          simp only [hbc, hcb, if_neg, if_false, Bool.false_eq_true] at hqr ⊢
          exact h2t a2 b2 c2 hpq hqr

theorem prodLt_conn {κ₁ κ₂ : Type} {l1 : κ₁ → κ₁ → Bool} {l2 : κ₂ → κ₂ → Bool}
    (h1c : ∀ a b : κ₁, l1 a b = false → l1 b a = false → a = b)
    (h2c : ∀ a b : κ₂, l2 a b = false → l2 b a = false → a = b) :
    ∀ p q : κ₁ × κ₂, prodLt l1 l2 p q = false → prodLt l1 l2 q p = false → p = q := by
  intro ⟨a1, a2⟩ ⟨b1, b2⟩ hpq hqp
  simp only [prodLt] at hpq hqp
  by_cases hab : l1 a1 b1 = true
  · simp [hab] at hpq
  · simp only [Bool.not_eq_true] at hab
    by_cases hba : l1 b1 a1 = true
    · simp [hba] at hqp
    · simp only [Bool.not_eq_true] at hba
      have h1 : a1 = b1 := h1c a1 b1 hab hba
      simp only [hab, hba, if_neg, if_false, Bool.false_eq_true] at hpq hqp
      have h2 : a2 = b2 := h2c a2 b2 hpq hqp
      rw [h1, h2]

/-! Stable insertion sort: permutation and sortedness. -/

theorem mem_sinsert {α : Type} {lt : α → α → Bool} {x z : α} :
    ∀ {l : List α}, z ∈ sinsert lt x l ↔ z = x ∨ z ∈ l := by
  intro l
  induction l with
  | nil => simp [sinsert]
  | cons y ys ih =>
    simp only [sinsert]
    by_cases h : lt x y = true
    · simp [h]
    · simp only [h, if_neg, if_false, Bool.false_eq_true, List.mem_cons, ih]
      tauto

theorem sinsert_perm {α : Type} (lt : α → α → Bool) (x : α) :
    ∀ l : List α, (sinsert lt x l).Perm (x :: l) := by
  intro l
  induction l with
  | nil => simp [sinsert]
  | cons y ys ih =>
    simp only [sinsert]
    by_cases h : lt x y = true
    · simp [h]
    · simp only [h, if_neg, if_false, Bool.false_eq_true]
      exact (List.Perm.cons y ih).trans (List.Perm.swap x y ys)

theorem ssort_perm {α : Type} (lt : α → α → Bool) (l : List α) : (ssort lt l).Perm l := by
  suffices h : ∀ (l acc : List α),
      (l.foldl (fun acc x => sinsert lt x acc) acc).Perm (acc ++ l) by
    simpa using h l []
  intro l
  induction l with
  | nil => simp
  | cons x xs ih =>
    intro acc
    simp only [List.foldl_cons]
    refine (ih (sinsert lt x acc)).trans ?_
    have h1 : (sinsert lt x acc ++ xs).Perm ((x :: acc) ++ xs) :=
      (sinsert_perm lt x acc).append_right xs
    refine h1.trans ?_
    simpa using List.perm_middle.symm

theorem sinsert_pairwise {α : Type} {lt : α → α → Bool}
    (hasymm : ∀ a b : α, lt a b = true → lt b a = false)
    (htrans : ∀ a b c : α, lt a b = true → lt b c = true → lt a c = true)
    (x : α) :
    ∀ {l : List α}, l.Pairwise (fun a b => lt b a = false) →
      (sinsert lt x l).Pairwise (fun a b => lt b a = false) := by
  intro l
  induction l with
  | nil => simp [sinsert]
  | cons y ys ih =>
    intro hp
    rcases List.pairwise_cons.mp hp with ⟨hy, hys⟩
    simp only [sinsert]
    by_cases h : lt x y = true
    · simp only [h, if_true]
      refine List.pairwise_cons.mpr ⟨?_, hp⟩
      intro z hz
      rcases List.mem_cons.mp hz with rfl | hz2
      · exact hasymm x z h
      · cases hzx : lt z x with
        | false => rfl
        | true =>
          have h3 := htrans z x y hzx h
          rw [hy z hz2] at h3
          exact absurd h3 (by simp)
    · simp only [h, if_neg, if_false, Bool.false_eq_true]
      refine List.pairwise_cons.mpr ⟨?_, ih hys⟩
      intro z hz
      rcases mem_sinsert.mp hz with rfl | hz2
      · simpa using h
      · exact hy z hz2

theorem ssort_pairwise {α : Type} {lt : α → α → Bool}
    (hasymm : ∀ a b : α, lt a b = true → lt b a = false)
    (htrans : ∀ a b c : α, lt a b = true → lt b c = true → lt a c = true)
    (l : List α) : (ssort lt l).Pairwise (fun a b => lt b a = false) := by
  suffices h : ∀ (l acc : List α), acc.Pairwise (fun a b => lt b a = false) →
      (l.foldl (fun acc x => sinsert lt x acc) acc).Pairwise (fun a b => lt b a = false) by
    exact h l [] (by simp)
  intro l
  induction l with
  | nil => intro acc h; simpa using h
  | cons x xs ih =>
    intro acc h
    exact ih (sinsert lt x acc) (sinsert_pairwise hasymm htrans x h)

/-! Adjacent-duplicate removal over a sorted list. -/

theorem uniqueAdjAux_good {α : Type} {lt p : α → α → Bool}
    (hnlt : ∀ a b c : α, lt b a = false → lt c b = false → lt c a = false)
    (hint : ∀ a b c : α, lt b a = false → lt c b = false → p a c = true → p a b = true) :
    ∀ (l : List α) (prev : α),
      (∀ z ∈ l, lt z prev = false) →
      l.Pairwise (fun a b => lt b a = false) →
      (uniqueAdjAux p prev l).Pairwise (fun a b => p a b = false) ∧
      (∀ z ∈ uniqueAdjAux p prev l, p prev z = false ∧ lt z prev = false) := by
  intro l
  induction l with
  | nil => intro prev _ _; simp [uniqueAdjAux]
  | cons y ys ih =>
    intro prev h1 h2
    rcases List.pairwise_cons.mp h2 with ⟨hy, hys⟩
    have h1y : lt y prev = false := h1 y (by simp)
    have h1ys : ∀ z ∈ ys, lt z prev = false := fun z hz => h1 z (by simp [hz])
    simp only [uniqueAdjAux]
    by_cases hp : p prev y = true
    · simp only [hp, if_true]
      exact ih prev h1ys hys
    · simp only [hp, if_neg, if_false, Bool.false_eq_true]
      have hih := ih y hy hys
      constructor
      · refine List.pairwise_cons.mpr ⟨?_, hih.1⟩
        intro z hz
        exact (hih.2 z hz).1
      · intro z hz
        rcases List.mem_cons.mp hz with rfl | hz2
        · exact ⟨by simpa using hp, h1y⟩
        · have hz3 := hih.2 z hz2
          refine ⟨?_, hnlt prev y z h1y hz3.2⟩
          cases hpz : p prev z with
          | false => rfl
          | true =>
            have h4 := hint prev y z h1y hz3.2 hpz
            rw [h4] at hp
            exact absurd rfl hp

theorem uniqueAdj_pairwise {α : Type} {lt p : α → α → Bool}
    (hnlt : ∀ a b c : α, lt b a = false → lt c b = false → lt c a = false)
    (hint : ∀ a b c : α, lt b a = false → lt c b = false → p a c = true → p a b = true)
    {l : List α} (hs : l.Pairwise (fun a b => lt b a = false)) :
    (uniqueAdj p l).Pairwise (fun a b => p a b = false) := by
  cases l with
  | nil => simp [uniqueAdj]
  | cons x xs =>
    rcases List.pairwise_cons.mp hs with ⟨hx, hxs⟩
    have h := uniqueAdjAux_good hnlt hint xs x hx hxs
    refine List.pairwise_cons.mpr ⟨?_, h.1⟩
    intro z hz
    exact (h.2 z hz).1

/-- Concatenating the first `N` pages of size `s` yields the first
`N * s` elements. -/
theorem pages_concat {α : Type} (l : List α) (s : Nat) :
    ∀ N : Nat, (List.range N).flatMap (fun q => (l.drop (q * s)).take s) = l.take (N * s) := by
  intro N
  induction N with
  | zero => simp
  | succ n ih =>
    rw [List.range_succ, List.flatMap_append, ih]
    simp only [List.flatMap_cons, List.flatMap_nil, List.append_nil]
    rw [Nat.succ_mul, List.take_add]

/-! Properties of the concrete lexicographic comparators. -/

theorem lt4_asymm : ∀ p q, lt4 p q = true → lt4 q p = false :=
  prodLt_asymm strLt_asymm (prodLt_asymm strLt_asymm (prodLt_asymm strLt_asymm intLt_asymm))

theorem lt4_trans : ∀ p q r, lt4 p q = true → lt4 q r = true → lt4 p r = true :=
  prodLt_trans strLt_trans strLt_conn
    (prodLt_trans strLt_trans strLt_conn (prodLt_trans strLt_trans strLt_conn intLt_trans))

theorem lt4_conn : ∀ p q, lt4 p q = false → lt4 q p = false → p = q :=
  prodLt_conn strLt_conn (prodLt_conn strLt_conn (prodLt_conn strLt_conn intLt_conn))

theorem lt3_conn : ∀ p q, lt3 p q = false → lt3 q p = false → p = q :=
  prodLt_conn strLt_conn (prodLt_conn strLt_conn strLt_conn)

theorem ltF_asymm : ∀ p q, ltF p q = true → ltF q p = false :=
  prodLt_asymm intLt_asymm (prodLt_asymm strLt_asymm strLt_asymm)

theorem ltF_trans : ∀ p q r, ltF p q = true → ltF q r = true → ltF p r = true :=
  prodLt_trans intLt_trans intLt_conn (prodLt_trans strLt_trans strLt_conn strLt_trans)

theorem specDedupLt_asymm : ∀ a b : Location,
    specDedupLt a b = true → specDedupLt b a = false := by
  intro a b h
  exact lt4_asymm (key4 a) (key4 b) h

theorem specDedupLt_trans : ∀ a b c : Location,
    specDedupLt a b = true → specDedupLt b c = true → specDedupLt a c = true := by
  intro a b c h1 h2
  exact lt4_trans (key4 a) (key4 b) (key4 c) h1 h2

theorem specDedupLt_nlt : ∀ a b c : Location,
    specDedupLt b a = false → specDedupLt c b = false → specDedupLt c a = false := by
  intro a b c h1 h2
  exact cmp_nlt_trans lt4_conn (fun p q r => lt4_trans p q r) h1 h2

theorem specFinalLt_asymm (impl : Impl) : ∀ a b : Location,
    specFinalLt impl a b = true → specFinalLt impl b a = false := by
  intro a b h
  exact ltF_asymm (keyF impl a) (keyF impl b) h

theorem specFinalLt_trans (impl : Impl) : ∀ a b c : Location,
    specFinalLt impl a b = true → specFinalLt impl b c = true →
      specFinalLt impl a c = true := by
  intro a b c h1 h2
  exact ltF_trans (keyF impl a) (keyF impl b) (keyF impl c) h1 h2

/-- A strict triple comparison extends to a strict four-tuple comparison:
the priority component only matters on full triple ties. -/
theorem lt3_to_lt4 : ∀ a b : Location, tripleLt a b = true → specDedupLt a b = true := by
  intro a b h
  simp only [tripleLt, lt3, key3, specDedupLt, lt4, key4, prodLt] at h ⊢
  by_cases h1 : strLt a.name b.name = true
  · simp [h1]
  · simp only [Bool.not_eq_true] at h1
    by_cases h2 : strLt b.name a.name = true
    · simp [h1, h2] at h
    · simp only [Bool.not_eq_true] at h2
      simp only [h1, h2, if_neg, if_false, Bool.false_eq_true] at h ⊢
      by_cases h3 : strLt a.iso2 b.iso2 = true
      · simp [h3]
      · simp only [Bool.not_eq_true] at h3
        by_cases h4 : strLt b.iso2 a.iso2 = true
        · simp [h3, h4] at h
        · simp only [Bool.not_eq_true] at h4
          simp only [h3, h4, if_neg, if_false, Bool.false_eq_true] at h ⊢
          simp [h]

/-- The interval property needed for deduplication: between two records
in ascending `(name, iso2, area, -priority)` order, a shared
`(name, iso2, area)` triple of the end points forces the same triple on
the middle record. -/
theorem dedup_interval : ∀ a b c : Location,
    specDedupLt b a = false → specDedupLt c b = false →
    spec_close a c = true → spec_close a b = true := by
  intro a b c h1 h2 h3
  have k1 : tripleLt b a = false := by
    cases h : tripleLt b a with
    | false => rfl
    | true => rw [lt3_to_lt4 b a h] at h1; exact h1
  have k2 : tripleLt c b = false := by
    cases h : tripleLt c b with
    | false => rfl
    | true => rw [lt3_to_lt4 c b h] at h2; exact h2
  have hkey : key3 a = key3 c := by
    simp only [spec_close, decide_eq_true_eq, Prod.mk.injEq] at h3
    simp [key3, h3.1, h3.2.1, h3.2.2]
  have k2a : tripleLt a b = false := by
    simpa only [tripleLt, hkey] using k2
  have hba : key3 b = key3 a := by
    cases k3 : tripleLt b a with
    | true => rw [k3] at k1; exact absurd k1 (by simp)
    | false => exact lt3_conn (key3 b) (key3 a) k1 k2a
  simp only [key3, Prod.mk.injEq] at hba
  simp [spec_close, hba.1, hba.2.1, hba.2.2]

/-! The code comparators coincide with the spec-side lexicographic ones. -/

theorem intLt_irrefl (a : Int) : intLt a a = false := by simp [intLt]

theorem basicSortB_eq_specDedupLt : ∀ a b : Location, basicSortB a b = specDedupLt a b := by
  intro a b
  simp only [basicSortB, specDedupLt, lt4, key4, prodLt]
  by_cases h1 : a.name = b.name
  · simp only [h1, ne_eq, not_true_eq_false, if_false, strLt_irrefl, Bool.false_eq_true,
      ite_false, ite_self]
    by_cases h2 : a.iso2 = b.iso2
    · simp only [h2, ne_eq, not_true_eq_false, if_false, strLt_irrefl, Bool.false_eq_true,
        ite_false, ite_self]
      by_cases h3 : a.area = b.area
      · simp only [h3, ne_eq, not_true_eq_false, if_false, strLt_irrefl, Bool.false_eq_true,
          ite_false, ite_self]
        rw [show intLt (-a.priority) (-b.priority) = decide (a.priority > b.priority) by
          simp only [intLt, decide_eq_decide]; omega]
      · cases hl : strLt a.area b.area with
        | true => simp [h3, hl]
        | false =>
          cases hl2 : strLt b.area a.area with
          | true => simp [h3, hl, hl2]
          | false => exact absurd (strLt_conn a.area b.area hl hl2) h3
    · cases hl : strLt a.iso2 b.iso2 with
      | true => simp [h1, h2, hl]
      | false =>
        cases hl2 : strLt b.iso2 a.iso2 with
        | true => simp [h1, h2, hl, hl2]
        | false => exact absurd (strLt_conn a.iso2 b.iso2 hl hl2) h2
  · cases hl : strLt a.name b.name with
    | true => simp [h1, hl]
    | false =>
      cases hl2 : strLt b.name a.name with
      | true => simp [h1, hl, hl2]
      | false => exact absurd (strLt_conn a.name b.name hl hl2) h1

theorem prioritySortB_eq_specFinalLt (impl : Impl) :
    ∀ a b : Location, prioritySortB impl a b = specFinalLt impl a b := by
  intro a b
  simp only [prioritySortB, specFinalLt, ltF, keyF, prodLt]
  by_cases h1 : a.priority = b.priority
  · simp only [h1, ne_eq, not_true_eq_false, if_false, intLt_irrefl, Bool.false_eq_true,
      ite_false, ite_self]
    by_cases h2 : to_treeword impl a.name = to_treeword impl b.name
    · simp only [h2, ne_eq, not_true_eq_false, if_false, strLt_irrefl, Bool.false_eq_true,
        ite_false, ite_self]
    · cases hl : strLt (to_treeword impl a.name) (to_treeword impl b.name) with
      | true => simp [h2, hl]
      | false =>
        cases hl2 : strLt (to_treeword impl b.name) (to_treeword impl a.name) with
        | true => simp [h2, hl, hl2]
        | false => exact absurd (strLt_conn _ _ hl hl2) h2
  · by_cases h3 : b.priority < a.priority
    · have e1 : intLt (-a.priority) (-b.priority) = true := by simp only [intLt]; simp; omega
      have e2 : decide (a.priority > b.priority) = true := by simp; omega
      simp [h1, e1, e2]
    · have e1 : intLt (-a.priority) (-b.priority) = false := by simp only [intLt]; simp; omega
      have e2 : intLt (-b.priority) (-a.priority) = true := by simp only [intLt]; simp; omega
      have e3 : decide (a.priority > b.priority) = false := by simp; omega
      simp [h1, e1, e2, e3]

theorem closeEnough_eq_spec_close : ∀ a b : Location, closeEnough a b = spec_close a b := by
  intro a b
  simp only [closeEnough, spec_close]
  by_cases h1 : a.name = b.name <;> by_cases h2 : a.iso2 = b.iso2 <;>
    by_cases h3 : a.area = b.area <;> simp [h1, h2, h3]

theorem reallyClose_eq_spec_geoid : ∀ a b : Location, reallyClose a b = spec_geoid_eq a b :=
  fun _ _ => rfl

theorem spec_close_symm (a b : Location) : spec_close a b = spec_close b a := by
  simp only [spec_close]
  rw [decide_eq_decide]
  exact eq_comm

theorem spec_geoid_eq_symm (a b : Location) : spec_geoid_eq a b = spec_geoid_eq b a := by
  simp only [spec_geoid_eq]
  rw [decide_eq_decide]
  exact eq_comm

theorem basicSortB_asymm : ∀ a b : Location, basicSortB a b = true → basicSortB b a = false := by
  intro a b h
  rw [basicSortB_eq_specDedupLt] at h ⊢
  exact specDedupLt_asymm a b h

theorem basicSortB_trans : ∀ a b c : Location,
    basicSortB a b = true → basicSortB b c = true → basicSortB a c = true := by
  intro a b c h1 h2
  rw [basicSortB_eq_specDedupLt] at h1 h2 ⊢
  exact specDedupLt_trans a b c h1 h2

theorem basicSortB_nlt : ∀ a b c : Location,
    basicSortB b a = false → basicSortB c b = false → basicSortB c a = false := by
  intro a b c h1 h2
  rw [basicSortB_eq_specDedupLt] at h1 h2 ⊢
  exact specDedupLt_nlt a b c h1 h2

theorem closeEnough_interval : ∀ a b c : Location,
    basicSortB b a = false → basicSortB c b = false →
    closeEnough a c = true → closeEnough a b = true := by
  intro a b c h1 h2 h3
  rw [basicSortB_eq_specDedupLt] at h1 h2
  rw [closeEnough_eq_spec_close] at h3 ⊢
  exact dedup_interval a b c h1 h2 h3

theorem closeEnough_false_not (a b : Location) (h : closeEnough a b = false) :
    ¬(a.name = b.name ∧ a.iso2 = b.iso2 ∧ a.area = b.area) := by
  simp only [closeEnough, Bool.and_eq_false_iff, decide_eq_false_iff_not] at h
  tauto

theorem keep_wanted_page_sublist {l out : List Location} {m p : Nat}
    (h : keep_wanted_page l m p = some out) : out.Sublist l := by
  simp only [keep_wanted_page] at h
  split at h
  · injection h with h2
    subst h2
    exact List.Sublist.refl l
  · split at h
    · exact absurd h (by simp)
    · injection h with h2
      subst h2
      exact (List.take_sublist _ _).trans (List.drop_sublist _ _)

theorem keep_wanted_page_unpaged (l : List Location) (p : Nat) :
    keep_wanted_page l 0 p = some l := by
  simp [keep_wanted_page]

theorem keep_wanted_page_in_range (l : List Location) {m p : Nat} (hm : m ≠ 0)
    (hlt : p * m < 2 ^ 32) (hle : p * m ≤ l.length) :
    keep_wanted_page l m p = some ((l.drop (p * m)).take m) := by
  simp only [keep_wanted_page]
  rw [if_neg hm, Nat.mod_eq_of_lt hlt, if_neg (not_lt.mpr hle)]

theorem keep_wanted_page_ub (l : List Location) {m p : Nat} (hm : m ≠ 0)
    (h : l.length < (p * m) % 2 ^ 32) : keep_wanted_page l m p = none := by
  simp only [keep_wanted_page]
  rw [if_neg hm, if_pos h]

/-- C5: in suggest, after translating the candidates, the list is sorted
ascending by `(name, iso2, area, -priority)` and deduplicated —
collapsing equal `(name, iso2, area)` tuples when `duplicates=false` and
only equal geoids when `duplicates=true` — then re-sorted by
`(-priority, normalized-name, area)` before pagination: the embedded
`suggest` coincides with `suggest_spec`, the pipeline written from the
spec wording with the spec-side comparators; and when `duplicates=false`
the returned page indeed carries no two entries with an equal
`(name, iso2, area)` tuple. -/
theorem suggest_sort_dedup_paginate :
    ∀ (impl : Impl) (pattern : String) (predicate : Location → Bool)
      (lang keyword : String) (page maxresults : Nat) (duplicates : Bool),
      impl.suggestReady = true →
      (suggest impl pattern predicate lang keyword page maxresults duplicates =
        suggest_spec impl pattern predicate lang keyword page maxresults duplicates) ∧
      (duplicates = false →
        ∀ out, suggest impl pattern predicate lang keyword page maxresults duplicates =
          some (.ok out) →
          out.Pairwise fun x y => ¬(x.name = y.name ∧ x.iso2 = y.iso2 ∧ x.area = y.area)) := by
  intro impl pattern predicate lang keyword page maxresults duplicates hready
  have e1 : basicSortB = specDedupLt :=
    funext fun a => funext fun b => basicSortB_eq_specDedupLt a b
  have e2 : prioritySortB impl = specFinalLt impl :=
    funext fun a => funext fun b => prioritySortB_eq_specFinalLt impl a b
  have e3 : closeEnough = spec_close :=
    funext fun a => funext fun b => closeEnough_eq_spec_close a b
  have e4 : reallyClose = spec_geoid_eq :=
    funext fun a => funext fun b => reallyClose_eq_spec_geoid a b
  constructor
  · cases duplicates with
    | false =>
      simp only [suggest, suggest_spec, hready, Bool.not_true, Bool.false_eq_true, if_false,
        Bool.not_false, if_true, e1, e2, e3]
    | true =>
      simp only [suggest, suggest_spec, hready, Bool.not_true, Bool.false_eq_true, if_false,
        Bool.not_false, if_true, e1, e2, e4]
  · intro hdup out hout
    subst hdup
    simp only [suggest, hready, Bool.not_true, Bool.false_eq_true, if_false, Bool.not_false,
      if_true] at hout
    by_cases hkw : (splitComma keyword).any (fun k => (alookup k impl.ternaryTrees).isNone) = true
    · rw [if_pos hkw] at hout
      simp only [Option.some.injEq, Except.ok.injEq] at hout
      subst hout
      simp
    · rw [if_neg hkw] at hout
      obtain ⟨out2, hk, hfo⟩ := Option.map_eq_some'.mp hout
      injection hfo with h5
      subst h5
      have h1 := ssort_pairwise basicSortB_asymm basicSortB_trans
        ((filter_features
          ((splitComma keyword).flatMap fun k =>
            match alookup k impl.ternaryTrees with
            | none => []
            | some tree => suggest_one_keyword impl pattern lang k tree)
          predicate).map (translate impl lang))
      have h2 := uniqueAdj_pairwise basicSortB_nlt closeEnough_interval h1
      have h3 := h2.imp fun h => closeEnough_false_not _ _ h
      have h4 := h3.perm (ssort_perm (prioritySortB impl) _).symm
        (fun {x y} hxy hh => hxy ⟨hh.1.symm, hh.2.1.symm, hh.2.2.symm⟩)
      exact List.Pairwise.sublist (keep_wanted_page_sublist hk) h4

/-- Witness for C5: a concrete query over a duplicate pair: the pair is
collapsed to the bonus-carrying copy, the exact match sorts first, and
the page carries no duplicate `(name, iso2, area)` tuple. -/
theorem suggest_sort_dedup_paginate_witness :
    suggest implC5 "Aa" (fun _ => false) "fi" "all" 0 10 false =
      some (.ok [{ locD1 with priority := 50000 }, locD3]) ∧
    List.Pairwise
      (fun x y : Location => ¬(x.name = y.name ∧ x.iso2 = y.iso2 ∧ x.area = y.area))
      [{ locD1 with priority := 50000 }, locD3] := by
  have h := suggest_sort_dedup_paginate implC5 "Aa" (fun _ => false) "fi" "all" 0 10 false rfl
  refine ⟨h.1.trans (by rfl), ?_⟩
  exact h.2 rfl _ (h.1.trans (by rfl))

/-- C4: the ranker's priority is the sum of exactly the four additive
scores — country, area, population and feature, each with its table
lookup, `default` fall-back and scale factor as described — and it is a
deterministic pure function of `(iso2, population, area, feature)` and
the configured tables: `getPriority` coincides with `rank_spec`, the
formula written from the spec, and two locations agreeing on those four
fields always receive equal priority. -/
theorem ranker_additive_deterministic :
    ∀ (p : LocationPriorities) (loc : Location),
      (LocationPriorities.getPriority p loc =
        rank_spec p loc.iso2 loc.population loc.area loc.feature) ∧
      (∀ loc2 : Location, loc.iso2 = loc2.iso2 → loc.population = loc2.population →
        loc.area = loc2.area → loc.feature = loc2.feature →
        LocationPriorities.getPriority p loc = LocationPriorities.getPriority p loc2) := by
  intro p loc
  have key : ∀ l : Location, LocationPriorities.getPriority p l =
      rank_spec p l.iso2 l.population l.area l.feature := by
    intro l
    simp only [LocationPriorities.getPriority, rank_spec,
      LocationPriorities.populationPriority, LocationPriorities.areaPriority,
      LocationPriorities.countryPriority, LocationPriorities.featurePriority]
    ring
  refine ⟨key loc, ?_⟩
  intro loc2 h1 h2 h3 h4
  rw [key loc, key loc2, h1, h2, h3, h4]

/-- Witness for C4: a concrete table set and location; the two forms
agree, a second location sharing the four ranking fields scores the
same, and the score is the expected 30340. -/
theorem ranker_additive_deterministic_witness :
    (LocationPriorities.getPriority prioC4 locC4 =
      rank_spec prioC4 locC4.iso2 locC4.population locC4.area locC4.feature) ∧
    (LocationPriorities.getPriority prioC4 locC4 =
      LocationPriorities.getPriority prioC4 locC4b) ∧
    LocationPriorities.getPriority prioC4 locC4 = 30340 := by
  have h := ranker_additive_deterministic prioC4 locC4
  exact ⟨h.1, h.2 locC4b rfl rfl rfl rfl, by decide⟩

/-- C3: in single-language suggest, `suggest_one_keyword` adds the
exact-match bonus `priorities.match * 1000` to every candidate whose
collated name equals the collated pattern (so case or accent differences
folded by the collator cannot prevent it), before the final priority
sort; and under the priority comparator a bonus-carrying exact match
sorts before any non-matching candidate of equal base priority whenever
the configured match priority is positive. -/
theorem suggest_exact_match_bonus :
    (∀ (impl : Impl) (pattern lang keyword : String) (tree : TreeFun),
      suggest_one_keyword impl pattern lang keyword tree =
        add_exact_match_bonus impl (find_candidates impl pattern lang keyword tree).2
          (find_candidates impl pattern lang keyword tree).1
          (impl.nameMatchPriority * priority_scale)) ∧
    (∀ (impl : Impl) (locs : List Location) (name : String) (bonus : Int) (loc : Location),
      loc ∈ locs → to_treeword impl loc.name = name →
      { loc with priority := loc.priority + bonus } ∈
        add_exact_match_bonus impl locs name bonus) ∧
    (∀ (impl : Impl) (a b : Location) (npat : String),
      0 < impl.nameMatchPriority →
      to_treeword impl a.name = npat → to_treeword impl b.name ≠ npat →
      a.priority = b.priority →
      prioritySortB impl
        { a with priority := a.priority + impl.nameMatchPriority * priority_scale } b =
        true) := by
  refine ⟨fun impl pattern lang keyword tree => rfl, ?_, ?_⟩
  · intro impl locs name bonus loc hmem heq
    unfold add_exact_match_bonus
    refine List.mem_map.mpr ⟨loc, hmem, ?_⟩
    simp [heq]
  · intro impl a b npat hm ha hb hpr
    have hscale : (0 : Int) < priority_scale := by decide
    have hbonus : 0 < impl.nameMatchPriority * priority_scale := mul_pos hm hscale
    unfold prioritySortB
    have hne : ({ a with priority := a.priority + impl.nameMatchPriority * priority_scale } :
        Location).priority ≠ b.priority := by
      simp only
      intro hcontra
      rw [hpr] at hcontra
      omega
    rw [if_pos hne, decide_eq_true_eq]
    simp only [gt_iff_lt]
    rw [hpr]
    linarith [hbonus]

/-- Witness for C3: with the default configuration, the exact match
`locA` receives the bonus and then sorts before the equal-priority
non-match `locB`. -/
theorem suggest_exact_match_bonus_witness :
    ({ locA with priority := locA.priority + baseImpl.nameMatchPriority * priority_scale } ∈
      add_exact_match_bonus baseImpl [locA, locB] "Abc"
        (baseImpl.nameMatchPriority * priority_scale)) ∧
    prioritySortB baseImpl
      { locA with priority := locA.priority + baseImpl.nameMatchPriority * priority_scale }
      locB = true := by
  have h := suggest_exact_match_bonus
  exact ⟨h.2.1 baseImpl [locA, locB] "Abc" (baseImpl.nameMatchPriority * priority_scale)
      locA (by simp) (by rfl),
    h.2.2 baseImpl locA locB "Abc" (by decide) (by rfl) (by decide) rfl⟩

/-- C6, settled against the code: the slice property holds only for
in-range pages.  When `page*size` — an `unsigned int` product, hence
reduced modulo `2^32` — does not exceed the length of the sorted
deduplicated result, the returned page is exactly the slice
`[p*s, (p+1)*s)`, the size-0 call returns the full result, and
concatenating the slices `0..N-1` yields its first `N*s` entries.  But
for an out-of-range page `keep_wanted_page` advances a list iterator
past the end with no clamp — undefined behaviour, `none` in the model
(the neighbouring second advance is clamped with `std::min`, so the
clamp was clearly intended) — and so the claim's for-every-page slice
and concatenation properties fail on the code: over five candidates,
page 7 of size 2 has no defined result where the claim requires the
empty page. -/
theorem suggest_pagination_unclamped :
    (∀ (impl : Impl) (pattern : String) (predicate : Location → Bool)
      (lang keyword : String) (dup : Bool) (s N p : Nat),
      0 < s → impl.suggestReady = true →
      (p * s < 2 ^ 32 →
        p * s ≤ (suggest_all impl pattern predicate lang keyword dup).length →
        suggest impl pattern predicate lang keyword p s dup =
          some (.ok
            (((suggest_all impl pattern predicate lang keyword dup).drop (p * s)).take s))) ∧
      (suggest impl pattern predicate lang keyword 0 0 dup =
        some (.ok (suggest_all impl pattern predicate lang keyword dup))) ∧
      ((List.range N).flatMap (fun q =>
          ((suggest_all impl pattern predicate lang keyword dup).drop (q * s)).take s) =
        (suggest_all impl pattern predicate lang keyword dup).take (N * s))) ∧
    (∀ (l : List Location) (m p : Nat), m ≠ 0 → l.length < (p * m) % 2 ^ 32 →
      keep_wanted_page l m p = none) ∧
    suggest implC6 "Qq" (fun _ => false) "fi" "all" 7 2 false = none := by
  refine ⟨?_, fun l m p hm h => keep_wanted_page_ub l hm h, by rfl⟩
  intro impl pattern predicate lang keyword dup s N p hs hready
  refine ⟨?_, ?_, pages_concat _ s N⟩
  · intro hlt hle
    simp only [suggest, suggest_all, hready, Bool.not_true, Bool.false_eq_true,
      if_false] at hle ⊢
    by_cases hkw :
        ((splitComma keyword).any fun k => (alookup k impl.ternaryTrees).isNone) = true
    · rw [if_pos hkw] at hle
      rw [if_pos hkw, if_pos hkw]
      simp
    · rw [if_neg hkw] at hle
      rw [if_neg hkw, if_neg hkw,
        keep_wanted_page_in_range _ (Nat.pos_iff_ne_zero.mp hs) hlt hle]
      rfl
  · simp only [suggest, suggest_all, hready, Bool.not_true, Bool.false_eq_true, if_false]
    by_cases hkw :
        ((splitComma keyword).any fun k => (alookup k impl.ternaryTrees).isNone) = true
    · rw [if_pos hkw, if_pos hkw]
    · rw [if_neg hkw, if_neg hkw, keep_wanted_page_unpaged]
      rfl

/-- Witness for C6's theorem: the in-range page 1 of size 2 over five
names is the third and fourth entries, pages 0 and 1 concatenated are
the first four entries of the unpaged result, and the out-of-range
page 7 of size 2 hits the unclamped advance. -/
theorem suggest_pagination_unclamped_witness :
    suggest implC6 "Qq" (fun _ => false) "fi" "all" 1 2 false =
      some (.ok [{ baseLoc with geoid := 3, name := "Cc" },
                 { baseLoc with geoid := 4, name := "Dd" }]) ∧
    ((List.range 2).flatMap (fun q =>
        ((suggest_all implC6 "Qq" (fun _ => false) "fi" "all" false).drop (q * 2)).take 2) =
      (suggest_all implC6 "Qq" (fun _ => false) "fi" "all" false).take (2 * 2)) ∧
    keep_wanted_page locsC6 2 7 = none := by
  have h := suggest_pagination_unclamped
  have h0 := h.1 implC6 "Qq" (fun _ => false) "fi" "all" false 2 2 1 (by decide) rfl
  refine ⟨?_, h0.2.2, h.2.1 locsC6 2 7 (by decide) (by decide)⟩
  exact (h0.1 (by decide) (by decide)).trans (by rfl)

/-- C2 (amended): while the suggest-ready flag is still false, both the
single-language and the multi-language suggest raise the error
"Attempt to use geonames suggest before it is ready!" — they return at
once with that error rather than blocking, and do not return results. -/
theorem suggest_not_ready_raises :
    ∀ impl : Impl, impl.suggestReady = false →
      (∀ (pattern : String) (predicate : Location → Bool) (lang keyword : String)
        (page maxresults : Nat) (duplicates : Bool),
        suggest impl pattern predicate lang keyword page maxresults duplicates =
          some (.error "Attempt to use geonames suggest before it is ready!")) ∧
      (∀ (pattern : String) (predicate : Location → Bool) (languages : List String)
        (keyword : String) (page maxresults : Nat) (duplicates : Bool),
        suggest_multilang impl pattern predicate languages keyword page maxresults
          duplicates =
          some (.error "Attempt to use geonames suggest before it is ready!")) := by
  intro impl h
  constructor <;> intros <;> simp [suggest, suggest_multilang, h]

/-- Counterexample for C2 as stated: during the initial load (flag
false) a suggest call neither succeeds nor returns an empty list — it
raises the not-ready error, for both variants. -/
theorem suggest_not_ready_counterexample :
    suggest implC2 "Abc" (fun _ => false) "fi" "all" 0 10 false =
      some (.error "Attempt to use geonames suggest before it is ready!") ∧
    suggest_multilang implC2 "Abc" (fun _ => false) ["fi", "sv"] "all" 0 10 false =
      some (.error "Attempt to use geonames suggest before it is ready!") :=
  ⟨rfl, rfl⟩

/-- Witness for C2's amended theorem at the concrete not-ready state. -/
theorem suggest_not_ready_raises_witness :
    suggest implC2 "Xy" (fun _ => true) "sv" "all" 1 5 true =
      some (.error "Attempt to use geonames suggest before it is ready!") ∧
    suggest_multilang implC2 "Xy" (fun _ => true) ["fi", "sv", "en"] "all" 1 5 true =
      some (.error "Attempt to use geonames suggest before it is ready!") := by
  have h := suggest_not_ready_raises implC2 rfl
  exact ⟨h.1 "Xy" (fun _ => true) "sv" "all" 1 5 true,
    h.2 "Xy" (fun _ => true) ["fi", "sv", "en"] "all" 1 5 true⟩

/-- C1, evaluated at the failing input: the multi-language suggest never
applies the caller-supplied predicate (its filter loop runs over the
still-empty result vector), so with a predicate that rejects every
location the single-language suggest returns an empty page while the
multi-language suggest still returns the rejected location in every
language view. -/
theorem suggest_multilang_ignores_predicate :
    suggest_multilang implC1 "Abc" (fun _ => true) ["fi", "sv"] "all" 0 10 false =
      some (.ok [[locA], [locA]]) ∧
    suggest implC1 "Abc" (fun _ => true) "fi" "all" 0 10 false = some (.ok []) :=
  ⟨rfl, rfl⟩

/-- C7: on a cache miss with an empty fetch, `name_search` still inserts
the empty result into the shared cache, while `lonlat_search`,
`id_search` and `keyword_search` return the empty result with the cache
state unchanged. -/
theorem search_empty_result_cache_policy :
    (∀ (impl : Impl) (db : GeoDB) (st : SearchState) (opts : QueryOptions) (name : String),
      impl.databaseDisabled = false →
      cache_find st (CacheKey.nameKey name opts.optshash) = none →
      check_forbidden_name_search name impl.forbiddenNamePatterns = false →
      db.fetchByName
        (if opts.resultLimit > 0 then { opts with resultLimit := max opts.resultLimit 100 }
         else opts) name = [] →
      name_search impl db st opts name =
        .ok ([], cache_insert st (CacheKey.nameKey name opts.optshash) [])) ∧
    (∀ (impl : Impl) (db : GeoDB) (st : SearchState) (opts : QueryOptions)
      (lon lat radius : Int),
      impl.databaseDisabled = false →
      cache_find st (CacheKey.lonlatKey lon lat radius opts.optshash) = none →
      db.fetchByLonLat opts lon lat radius = [] →
      lonlat_search impl db st opts lon lat radius = ([], st)) ∧
    (∀ (impl : Impl) (db : GeoDB) (st : SearchState) (opts : QueryOptions) (i : Int),
      impl.databaseDisabled = false →
      cache_find st (CacheKey.idKey i opts.optshash) = none →
      db.fetchById opts i = [] →
      id_search impl db st opts i = ([], st)) ∧
    (∀ (impl : Impl) (db : GeoDB) (st : SearchState) (opts : QueryOptions) (kw : String),
      impl.databaseDisabled = false →
      cache_find st (CacheKey.keywordKey kw opts.optshash) = none →
      db.fetchByKeyword opts kw = [] →
      keyword_search impl db st opts kw = ([], st)) := by
  refine ⟨?_, ?_, ?_, ?_⟩
  · intro impl db st opts name hdb hmiss hforb hfetch
    simp [name_search, hdb, hmiss, hforb, hfetch, assign_priorities, ssort]
  · intro impl db st opts lon lat radius hdb hmiss hfetch
    simp [lonlat_search, hdb, hmiss, hfetch]
  · intro impl db st opts i hdb hmiss hfetch
    simp [id_search, hdb, hmiss, hfetch]
  · intro impl db st opts kw hdb hmiss hfetch
    simp [keyword_search, hdb, hmiss, hfetch]

/-- Witness for C7 at the empty database and empty cache. -/
theorem search_empty_result_cache_policy_witness :
    name_search baseImpl dbEmpty stEmpty opts0 "Kumpula" =
      .ok ([], cache_insert stEmpty (CacheKey.nameKey "Kumpula" 0) []) ∧
    lonlat_search baseImpl dbEmpty stEmpty opts0 25 60 50 = ([], stEmpty) ∧
    id_search baseImpl dbEmpty stEmpty opts0 658225 = ([], stEmpty) ∧
    keyword_search baseImpl dbEmpty stEmpty opts0 "mareografit" = ([], stEmpty) := by
  have h := search_empty_result_cache_policy
  exact ⟨h.1 baseImpl dbEmpty stEmpty opts0 "Kumpula" rfl rfl rfl rfl,
    h.2.1 baseImpl dbEmpty stEmpty opts0 25 60 50 rfl rfl rfl,
    h.2.2.1 baseImpl dbEmpty stEmpty opts0 658225 rfl rfl rfl,
    h.2.2.2 baseImpl dbEmpty stEmpty opts0 "mareografit" rfl rfl rfl⟩

/-- C8: on a cache miss (and with the database enabled), `name_search`
raises the non-retryable "Forbidden name search" error exactly when some
configured deny pattern matches the name, and otherwise returns a
result; the error carries no state, so the generation and the cache are
untouched.  With the deny list modelled from the spec's scenario 11,
`Helsinki.png` is rejected and `Helsinki` is not. -/
theorem name_search_forbidden_names :
    (∀ (impl : Impl) (db : GeoDB) (st : SearchState) (opts : QueryOptions) (name : String),
      impl.databaseDisabled = false →
      cache_find st (CacheKey.nameKey name opts.optshash) = none →
      ((name_search impl db st opts name = .error "Forbidden name search") ↔
        check_forbidden_name_search name impl.forbiddenNamePatterns = true) ∧
      (check_forbidden_name_search name impl.forbiddenNamePatterns = false →
        ∃ res st2, name_search impl db st opts name = .ok (res, st2))) ∧
    check_forbidden_name_search "Helsinki.png" [deny_webasset] = true ∧
    check_forbidden_name_search "Helsinki" [deny_webasset] = false := by
  refine ⟨?_, by rfl, by rfl⟩
  intro impl db st opts name hdb hmiss
  cases hf : check_forbidden_name_search name impl.forbiddenNamePatterns with
  | true =>
    refine ⟨⟨fun _ => rfl, fun _ => ?_⟩, fun hcontra => absurd hcontra (by simp)⟩
    simp [name_search, hdb, hmiss, hf]
  | false =>
    refine ⟨⟨fun herr => ?_, fun hcontra => absurd hcontra (by simp)⟩, fun _ => ?_⟩
    · simp [name_search, hdb, hmiss, hf] at herr
    · simp only [name_search, hdb, Bool.false_eq_true, if_false, hmiss, hf]
      exact ⟨_, _, rfl⟩

/-- Witness for C8: with the modelled deny list, the concrete search for
`Helsinki.png` fails with the forbidden-name error and the search for
`Helsinki` returns a result. -/
theorem name_search_forbidden_names_witness :
    (name_search implC8 dbName stEmpty opts0 "Helsinki.png" =
      .error "Forbidden name search") ∧
    (∃ res st2, name_search implC8 dbName stEmpty opts0 "Helsinki" = .ok (res, st2)) := by
  have h := name_search_forbidden_names
  exact ⟨(h.1 implC8 dbName stEmpty opts0 "Helsinki.png" rfl rfl).1.mpr (by rfl),
    (h.1 implC8 dbName stEmpty opts0 "Helsinki" rfl rfl).2 (by rfl)⟩

/-- C9: `reload` never throws (it is a total function returning the
success flag and message).  A reload requested while another is in
progress is rejected with the already-in-progress message and leaves the
published generation untouched; a failed or throwing build stores the
error and leaves the generation untouched; and the published generation
changes only on the successful path, where it is replaced by the single
store of the new generation. -/
theorem reload_protocol :
    (∀ (st : EngineState) (o : BuildOutcome), st.reloading = true →
      reload st o = ((false, "Geo reload was already in progress"),
        { st with errorMessage := "Geo reload was already in progress" })) ∧
    (∀ (st : EngineState) (err : String), st.reloading = false →
      reload st (.failed err) =
        ((false, err), { st with errorMessage := err, reloading := false })) ∧
    (∀ (st : EngineState) (err : String), st.reloading = false →
      reload st (.threw err) =
        ((false, err), { st with errorMessage := err, reloading := false })) ∧
    (∀ (st : EngineState) (g : Nat), st.reloading = false →
      reload st (.ok g) =
        ((true, "Geonames reloaded"),
          { st with implGen := g, errorMessage := "", reloading := false })) ∧
    (∀ (st : EngineState) (o : BuildOutcome),
      (reload st o).2.implGen ≠ st.implGen →
      st.reloading = false ∧ (reload st o).1.1 = true ∧ ∃ g, o = .ok g) := by
  refine ⟨?_, ?_, ?_, ?_, ?_⟩
  · intro st o h
    simp [reload, h]
  · intro st err h
    simp [reload, h]
  · intro st err h
    simp [reload, h]
  · intro st g h
    simp [reload, h]
  · intro st o h
    by_cases hr : st.reloading = true
    · simp [reload, hr] at h
    · simp only [Bool.not_eq_true] at hr
      cases o with
      | ok g => exact ⟨hr, by simp [reload, hr], g, rfl⟩
      | failed err => simp [reload, hr] at h
      | threw err => simp [reload, hr] at h

/-- Witness for C9 at concrete engine states and build outcomes. -/
theorem reload_protocol_witness :
    reload { reloading := true, errorMessage := "", implGen := 5 } (.ok 6) =
      ((false, "Geo reload was already in progress"),
        { reloading := true, errorMessage := "Geo reload was already in progress",
          implGen := 5 }) ∧
    reload { reloading := false, errorMessage := "", implGen := 5 } (.failed "boom") =
      ((false, "boom"), { reloading := false, errorMessage := "boom", implGen := 5 }) ∧
    reload { reloading := false, errorMessage := "", implGen := 5 } (.threw "crash") =
      ((false, "crash"), { reloading := false, errorMessage := "crash", implGen := 5 }) ∧
    reload { reloading := false, errorMessage := "x", implGen := 5 } (.ok 6) =
      ((true, "Geonames reloaded"),
        { reloading := false, errorMessage := "", implGen := 6 }) := by
  have h := reload_protocol
  exact ⟨h.1 _ _ rfl, h.2.1 _ _ rfl, h.2.2.1 _ _ rfl, h.2.2.2.1 _ _ rfl⟩

theorem eqOutsideNAC_refl (a : Location) : eqOutsideNAC a a := by
  simp [eqOutsideNAC]

theorem eqOutsideNAC_trans {a b c : Location}
    (h1 : eqOutsideNAC a b) (h2 : eqOutsideNAC b c) : eqOutsideNAC a c := by
  obtain ⟨e1, e2, e3, e4, e5, e6, e7, e8, e9, e10, e11, e12, e13⟩ := h1
  obtain ⟨f1, f2, f3, f4, f5, f6, f7, f8, f9, f10, f11, f12, f13⟩ := h2
  exact ⟨e1.trans f1, e2.trans f2, e3.trans f3, e4.trans f4, e5.trans f5, e6.trans f6,
    e7.trans f7, e8.trans f8, e9.trans f9, e10.trans f10, e11.trans f11, e12.trans f12,
    e13.trans f13⟩

theorem update_area_eqOutside (l : Location) (x : String) :
    eqOutsideNAC { l with area := x } l := by
  simp [eqOutsideNAC]

theorem update_country_eqOutside (l : Location) (x : String) :
    eqOutsideNAC { l with country := x } l := by
  simp [eqOutsideNAC]

theorem translate_name_eqOutside (impl : Impl) (lang : String) (loc : Location) :
    eqOutsideNAC (translate_name impl lang loc) loc := by
  unfold translate_name
  cases h1 : alookup loc.geoid impl.alternateNames with
  | none => exact eqOutsideNAC_refl loc
  | some tr =>
    cases h2 : alookup (to_language lang) tr with
    | none =>
      simp only [h2]
      exact eqOutsideNAC_refl loc
    | some n =>
      simp only [h2]
      simp [eqOutsideNAC]

theorem translate_area_municipality_eqOutside (impl : Impl) (lg : String) (loc : Location) :
    eqOutsideNAC (translate_area_municipality impl lg loc) loc := by
  unfold translate_area_municipality
  cases h1 : alookup loc.municipality impl.alternateMunicipalities with
  | none => exact eqOutsideNAC_refl loc
  | some tr =>
    cases h2 : alookup lg tr with
    | none =>
      simp only [h2]
      exact eqOutsideNAC_refl loc
    | some a =>
      simp only [h2]
      exact update_area_eqOutside loc a

theorem translate_area_core_fst_eqOutside (impl : Impl) (lg : String) (loc : Location) :
    eqOutsideNAC (translate_area_core impl lg loc).1 loc := by
  have hm := translate_area_municipality_eqOutside impl lg loc
  unfold translate_area_core
  by_cases h : (translate_area_municipality impl lg loc).area = ""
  · simp only [h, ne_eq, not_true_eq_false, if_false]
    exact hm
  · simp only [h, ne_eq, not_false_eq_true, if_true]
    cases h2 : alookup (area_country_component (translate_area_municipality impl lg loc).area)
        impl.alternateCountries with
    | none =>
      simp only [h2]
      exact hm
    | some tr =>
      simp only [h2]
      cases h3 : alookup lg tr with
      | none =>
        simp only [h3]
        exact hm
      | some t =>
        simp only [h3]
        exact eqOutsideNAC_trans (update_area_eqOutside _ _) hm

theorem translate_area_eqOutside (impl : Impl) (lang : String) (loc : Location) :
    eqOutsideNAC (translate_area impl lang loc) loc := by
  have hc := translate_area_core_fst_eqOutside impl (to_language lang) loc
  unfold translate_area
  by_cases h : (translate_area_core impl (to_language lang) loc).2 = true
  · simp only [h, if_true]
    exact hc
  · simp only [Bool.not_eq_true] at h
    simp only [h, Bool.false_eq_true, if_false]
    by_cases h2 : (translate_area_core impl (to_language lang) loc).1.name =
        (translate_area_core impl (to_language lang) loc).1.area
    · rw [if_pos h2]
      exact eqOutsideNAC_trans (update_area_eqOutside _ _) hc
    · rw [if_neg h2]
      exact hc

/-- The clearing step of `translate_area` on the non-early path: when
the core leaves a record whose name equals its area, the area is
emptied. -/
theorem translate_area_clears (impl : Impl) (lang : String) (loc : Location)
    (hearly : (translate_area_core impl (to_language lang) loc).2 = false)
    (hname : (translate_area_core impl (to_language lang) loc).1.name =
      (translate_area_core impl (to_language lang) loc).1.area) :
    (translate_area impl lang loc).area = "" := by
  unfold translate_area
  simp only [hearly, Bool.false_eq_true, if_false]
  rw [if_pos hname]

/-- C10 (amended): `translate` produces a new record that agrees with
the input on every field other than name, area and country; and on every
path except the early return of `translate_area` (country component
present in the alternate-countries table without an entry for the
language), a translated name equal to the translated area forces the
area to be cleared.  The counterexample shows the early-return path
violates the unqualified claim. -/
theorem translate_contract :
    ∀ (impl : Impl) (lang : String) (loc : Location),
      eqOutsideNAC (translate impl lang loc) loc ∧
      ((translate_area_core impl (to_language lang) (translate_name impl lang loc)).2 =
          false →
        (translate_area_core impl (to_language lang) (translate_name impl lang loc)).1.name =
          (translate_area_core impl (to_language lang) (translate_name impl lang loc)).1.area →
        (translate impl lang loc).area = "") := by
  intro impl lang loc
  constructor
  · unfold translate
    exact eqOutsideNAC_trans (update_country_eqOutside _ _)
      (eqOutsideNAC_trans (translate_area_eqOutside _ _ _) (translate_name_eqOutside _ _ _))
  · intro hearly hname
    show (translate_area impl lang (translate_name impl lang loc)).area = ""
    exact translate_area_clears impl lang (translate_name impl lang loc) hearly hname

/-- Counterexample for C10 as stated: on the early-return path the
translated name equals the translated area, yet the area is not
cleared. -/
theorem translate_clear_skipped_counterexample :
    (translate implC10 "fi" locC10).name = (translate implC10 "fi" locC10).area ∧
    (translate implC10 "fi" locC10).area ≠ "" := by
  constructor
  · rfl
  · intro h
    exact absurd h (by decide)

/-- Witness for C10's amended theorem: without the alternate-country
entry the early return does not trigger, and the colliding area is
cleared; all fields outside name, area, country are preserved. -/
theorem translate_contract_witness :
    eqOutsideNAC (translate implC10w "fi" locC10) locC10 ∧
    (translate implC10w "fi" locC10).area = "" := by
  have h := translate_contract implC10w "fi" locC10
  exact ⟨h.1, h.2 (by rfl) (by rfl)⟩

end Geonames
